import Mathlib

/-!
Shallow embedding of the pigeon AST walker.

Two walker variants exist in the sources:
* `src/ast/ast_walk.go` (namespace `AstWalk` below): plain `Visitor` plus an
  optional `VisitReplacer` capability, detected dynamically by `Walk`.
* `src/unnamed/part_000` (namespace `AstBackref` below): every visitor always
  receives a `Backref` carrying the parent and a replacer closure.

Visitors are modelled as state machines: a state type `σ` together with a step
function; the step returns the continuation visitor (`none` models returning a
nil visitor) and the list of arguments the visitor passed to the replacer
closure during the visit call, in order.  Walkers return the trace of visit
calls (each entry is the, possibly nil, expression argument of one `Visit`
call) and either the final occupant of the walked slot or the fault (Go
`panic`) that aborted the traversal.
-/

/-- Modelled from the spec: the closed node taxonomy (§3 table).  The Go type
declarations (`ast.go`) are not among the sources; the child shapes follow the
spec's table and the field accesses in the walker switches
(`Expr`, `Alternatives`, `Rules`, `Exprs`).  The extra constructor
`unknownExpr` stands for a value of the open Go interface `Expression` that is
outside the closed taxonomy (the `default:` case of the walker switches). -/
inductive Expression : Type where
  | grammar (rules : List Expression)
  | rule (expr : Expression)
  | choiceExpr (alternatives : List Expression)
  | seqExpr (exprs : List Expression)
  | actionExpr (expr : Expression)
  | labeledExpr (expr : Expression)
  | andExpr (expr : Expression)
  | notExpr (expr : Expression)
  | oneOrMoreExpr (expr : Expression)
  | zeroOrMoreExpr (expr : Expression)
  | zeroOrOneExpr (expr : Expression)
  | andCodeExpr
  | notCodeExpr
  | stateCodeExpr
  | anyMatcher
  | charClassMatcher
  | litMatcher
  | ruleRefExpr
  | unknownExpr

/-- The Go type assertion `expr.(*Rule)` succeeds exactly on Rule-kind nodes. -/
def Expression.isRule : Expression → Bool
  | .rule _ => true
  | _ => false

mutual

/-- A tree drawn from the closed taxonomy only: no `unknownExpr` anywhere.
Every tree produced by the (out-of-scope) grammar parser satisfies this. -/
def Expression.wellFormed : Expression → Bool
  | .grammar rules => Expression.wellFormedList rules
  | .rule e => Expression.wellFormed e
  | .choiceExpr es => Expression.wellFormedList es
  | .seqExpr es => Expression.wellFormedList es
  | .actionExpr e => Expression.wellFormed e
  | .labeledExpr e => Expression.wellFormed e
  | .andExpr e => Expression.wellFormed e
  | .notExpr e => Expression.wellFormed e
  | .oneOrMoreExpr e => Expression.wellFormed e
  | .zeroOrMoreExpr e => Expression.wellFormed e
  | .zeroOrOneExpr e => Expression.wellFormed e
  | .andCodeExpr => true
  | .notCodeExpr => true
  | .stateCodeExpr => true
  | .anyMatcher => true
  | .charClassMatcher => true
  | .litMatcher => true
  | .ruleRefExpr => true
  | .unknownExpr => false

/-- `wellFormed` on every element of a child list. -/
def Expression.wellFormedList : List Expression → Bool
  | [] => true
  | e :: rest => Expression.wellFormed e && Expression.wellFormedList rest

end

/-- Go panics of the walkers: the `default:` case of the traversal switch
(`panic("unknown expression type %T")`), the failed type assertion in the
Grammar replacer (`expr.(*Rule)`), and invoking a replacer closure that was
left nil because the parent kind is absent from the replacer switch. -/
inductive Fault : Type where
  | unknownExpressionType
  | nonRuleReplacement
  | nilReplacer
deriving DecidableEq

/-- What one `Visit` call returns and does: `next` is the returned
continuation visitor (`none` models Go `nil`), `calls` the arguments the
visitor passed to the replacer closure during the visit, in order. -/
structure VisitStep (σ : Type) : Type where
  next : Option σ
  calls : List Expression

/-- Result of walking one slot: the trace of `Visit` calls made (in order,
each argument as passed, `none` being a nil expression) together with either
the final occupant of the walked slot or the fault that aborted the walk. -/
structure WalkOut : Type where
  trace : List (Option Expression)
  result : Except Fault Expression

/-- One invocation of the replacer closure built by the
`switch parent := parent0.(type)` block at the top of `walk0` (part_000 lines
38-86) and `walkReplacer` (ast_walk.go lines 94-142): with no parent the
closure is `func(expr Expression) {}` and the slot is untouched; a Grammar
parent asserts `expr.(*Rule)` and panics on a non-Rule argument; every other
parent kind of the switch overwrites the slot; a parent kind absent from the
switch leaves the closure nil, so invoking it panics.  `cur` is the pending
slot overwrite from earlier invocations (`none` = slot untouched). -/
def replacerCall (parent0 : Option Expression) (cur : Option Expression) (c : Expression) :
    Except Fault (Option Expression) :=
  match parent0 with
  | none => .ok cur
  | some (.grammar _) => if c.isRule then .ok (some c) else .error .nonRuleReplacement
  | some (.actionExpr _) => .ok (some c)
  | some (.andExpr _) => .ok (some c)
  | some (.choiceExpr _) => .ok (some c)
  | some (.labeledExpr _) => .ok (some c)
  | some (.notExpr _) => .ok (some c)
  | some (.oneOrMoreExpr _) => .ok (some c)
  | some (.rule _) => .ok (some c)
  | some (.seqExpr _) => .ok (some c)
  | some (.zeroOrMoreExpr _) => .ok (some c)
  | some (.zeroOrOneExpr _) => .ok (some c)
  | some _ => .error .nilReplacer

/-- The sequence of replacer invocations a visitor makes during one visit,
applied in order (last write wins); the first faulting invocation panics. -/
def replacerApply (parent0 : Option Expression) (calls : List Expression) :
    Except Fault (Option Expression) :=
  calls.foldlM (replacerCall parent0) none

/-- The body of the Grammar case of the replacer switch, at the slot level:
`parent.Rules[index] = expr.(*Rule)` (part_000 lines 53-56, ast_walk.go lines
109-112).  The failed assertion panics before anything is written. -/
def grammarSlotWrite (rules : List Expression) (index : Nat) (e : Expression) :
    Except Fault (List Expression) :=
  if e.isRule then .ok (rules.set index e) else .error .nonRuleReplacement

namespace AstBackref

/-- part_000: `Backref` hands the visitor the parent of the node being
visited; the replacer closure it also carries is modelled by the `calls`
component of `VisitStep`. -/
structure Backref : Type where
  parent : Option Expression

mutual

/-- part_000 `walk0`: builds the replacer for the slot `(parent0, index)`,
calls `v.Visit(expr, Backref{parent0, replacer})`, returns if the
continuation is nil, otherwise dispatches on the node kind and recurses into
each child in declared order; the `default:` case panics.  The slot index is
represented by the child's position in the rebuilt child list.  The returned
occupant is the replacement if the visitor overwrote the slot (the old node
and any rewrites inside it are then detached), otherwise the node with its
children rewritten. -/
def walk0 {σ : Type} (visit : σ → Option Expression → Backref → VisitStep σ)
    (s : σ) (e : Expression) (parent0 : Option Expression) : WalkOut :=
  let step := visit s (some e) ⟨parent0⟩
  match replacerApply parent0 step.calls with
  | .error f => ⟨[some e], .error f⟩
  | .ok replaced =>
    match step.next with
    | none => ⟨[some e], .ok (replaced.getD e)⟩
    | some s1 =>
      match e with
      | .grammar rules =>
        let r := walkChildren visit s1 (.grammar rules) rules
        ⟨some e :: r.1, r.2.map fun rules1 => replaced.getD (.grammar rules1)⟩
      | .rule child =>
        let r := walk0 visit s1 child (some e)
        ⟨some e :: r.trace, r.result.map fun child1 => replaced.getD (.rule child1)⟩
      | .choiceExpr alts =>
        let r := walkChildren visit s1 (.choiceExpr alts) alts
        ⟨some e :: r.1, r.2.map fun alts1 => replaced.getD (.choiceExpr alts1)⟩
      | .seqExpr es =>
        let r := walkChildren visit s1 (.seqExpr es) es
        ⟨some e :: r.1, r.2.map fun es1 => replaced.getD (.seqExpr es1)⟩
      | .actionExpr child =>
        let r := walk0 visit s1 child (some e)
        ⟨some e :: r.trace, r.result.map fun child1 => replaced.getD (.actionExpr child1)⟩
      | .labeledExpr child =>
        let r := walk0 visit s1 child (some e)
        ⟨some e :: r.trace, r.result.map fun child1 => replaced.getD (.labeledExpr child1)⟩
      | .andExpr child =>
        let r := walk0 visit s1 child (some e)
        ⟨some e :: r.trace, r.result.map fun child1 => replaced.getD (.andExpr child1)⟩
      | .notExpr child =>
        let r := walk0 visit s1 child (some e)
        ⟨some e :: r.trace, r.result.map fun child1 => replaced.getD (.notExpr child1)⟩
      | .oneOrMoreExpr child =>
        let r := walk0 visit s1 child (some e)
        ⟨some e :: r.trace, r.result.map fun child1 => replaced.getD (.oneOrMoreExpr child1)⟩
      | .zeroOrMoreExpr child =>
        let r := walk0 visit s1 child (some e)
        ⟨some e :: r.trace, r.result.map fun child1 => replaced.getD (.zeroOrMoreExpr child1)⟩
      | .zeroOrOneExpr child =>
        let r := walk0 visit s1 child (some e)
        ⟨some e :: r.trace, r.result.map fun child1 => replaced.getD (.zeroOrOneExpr child1)⟩
      | .andCodeExpr => ⟨[some e], .ok (replaced.getD e)⟩
      | .notCodeExpr => ⟨[some e], .ok (replaced.getD e)⟩
      | .stateCodeExpr => ⟨[some e], .ok (replaced.getD e)⟩
      | .anyMatcher => ⟨[some e], .ok (replaced.getD e)⟩
      | .charClassMatcher => ⟨[some e], .ok (replaced.getD e)⟩
      | .litMatcher => ⟨[some e], .ok (replaced.getD e)⟩
      | .ruleRefExpr => ⟨[some e], .ok (replaced.getD e)⟩
      | .unknownExpr => ⟨[some e], .error .unknownExpressionType⟩
termination_by sizeOf e

/-- The `for i, e := range ...` loops of `walk0`: walks each child in order
with the same continuation visitor; a panic in one child aborts the loop
(later siblings are not walked).  Returns the concatenated trace and the
rewritten child list (each slot's final occupant). -/
def walkChildren {σ : Type} (visit : σ → Option Expression → Backref → VisitStep σ)
    (s : σ) (parent : Expression) :
    List Expression → List (Option Expression) × Except Fault (List Expression)
  | [] => ([], .ok [])
  | c :: rest =>
    let r := walk0 visit s c (some parent)
    match r.result with
    | .error f => (r.trace, .error f)
    | .ok c1 =>
      let rr := walkChildren visit s parent rest
      (r.trace ++ rr.1, rr.2.map fun cs => c1 :: cs)
termination_by l => sizeOf l

end

/-- part_000 `Walk(v, expr)`: `walk0(v, expr, nil, 0)`. -/
def Walk {σ : Type} (visit : σ → Option Expression → Backref → VisitStep σ)
    (s : σ) (e : Expression) : WalkOut :=
  walk0 visit s e none

/-- part_000 `inspector.Visit(expr, br)`: `if f(expr) { return f }; return
nil`; the `Backref` is ignored and the replacer is never invoked.  The
visitor value is the predicate itself. -/
def inspector : (Option Expression → Bool) → Option Expression → Backref →
    VisitStep (Option Expression → Bool) :=
  fun f oe _ => if f oe then ⟨some f, []⟩ else ⟨none, []⟩

/-- part_000 `Inspect(expr, f)`: `Walk(inspector(f), expr)`. -/
def Inspect (e : Expression) (f : Option Expression → Bool) : WalkOut :=
  Walk inspector f e

end AstBackref

namespace AstWalk

mutual

/-- ast_walk.go `walkVisitor`: `if v = v.Visit(expr); v == nil { return }`,
then the traversal switch recursing into each child in declared order with
the returned visitor; the `default:` case panics.  No replacement capability
exists on this path. -/
def walkVisitor {σ : Type} (visit : σ → Option Expression → Option σ) (s : σ)
    (e : Expression) : List (Option Expression) × Except Fault Unit :=
  match visit s (some e) with
  | none => ([some e], .ok ())
  | some s1 =>
    match e with
    | .grammar rules =>
      let r := walkVisitorChildren visit s1 rules
      (some e :: r.1, r.2)
    | .rule child =>
      let r := walkVisitor visit s1 child
      (some e :: r.1, r.2)
    | .choiceExpr alts =>
      let r := walkVisitorChildren visit s1 alts
      (some e :: r.1, r.2)
    | .seqExpr es =>
      let r := walkVisitorChildren visit s1 es
      (some e :: r.1, r.2)
    | .actionExpr child =>
      let r := walkVisitor visit s1 child
      (some e :: r.1, r.2)
    | .labeledExpr child =>
      let r := walkVisitor visit s1 child
      (some e :: r.1, r.2)
    | .andExpr child =>
      let r := walkVisitor visit s1 child
      (some e :: r.1, r.2)
    | .notExpr child =>
      let r := walkVisitor visit s1 child
      (some e :: r.1, r.2)
    | .oneOrMoreExpr child =>
      let r := walkVisitor visit s1 child
      (some e :: r.1, r.2)
    | .zeroOrMoreExpr child =>
      let r := walkVisitor visit s1 child
      (some e :: r.1, r.2)
    | .zeroOrOneExpr child =>
      let r := walkVisitor visit s1 child
      (some e :: r.1, r.2)
    | .andCodeExpr => ([some e], .ok ())
    | .notCodeExpr => ([some e], .ok ())
    | .stateCodeExpr => ([some e], .ok ())
    | .anyMatcher => ([some e], .ok ())
    | .charClassMatcher => ([some e], .ok ())
    | .litMatcher => ([some e], .ok ())
    | .ruleRefExpr => ([some e], .ok ())
    | .unknownExpr => ([some e], .error .unknownExpressionType)
termination_by sizeOf e

/-- The `for _, e := range ...` loops of `walkVisitor`. -/
def walkVisitorChildren {σ : Type} (visit : σ → Option Expression → Option σ) (s : σ) :
    List Expression → List (Option Expression) × Except Fault Unit
  | [] => ([], .ok ())
  | c :: rest =>
    let r := walkVisitor visit s c
    match r.2 with
    | .error f => (r.1, .error f)
    | .ok _ =>
      let rr := walkVisitorChildren visit s rest
      (r.1 ++ rr.1, rr.2)
termination_by l => sizeOf l

end

mutual

/-- ast_walk.go `walkReplacer`: identical to part_000 `walk0` except that the
visitor receives only the node and the replacer closure
(`VisitReplace(expr, replacer)`), not the parent. -/
def walkReplacer {σ : Type} (visit : σ → Option Expression → VisitStep σ)
    (s : σ) (e : Expression) (parent0 : Option Expression) : WalkOut :=
  let step := visit s (some e)
  match replacerApply parent0 step.calls with
  | .error f => ⟨[some e], .error f⟩
  | .ok replaced =>
    match step.next with
    | none => ⟨[some e], .ok (replaced.getD e)⟩
    | some s1 =>
      match e with
      | .grammar rules =>
        let r := walkReplacerChildren visit s1 (.grammar rules) rules
        ⟨some e :: r.1, r.2.map fun rules1 => replaced.getD (.grammar rules1)⟩
      | .rule child =>
        let r := walkReplacer visit s1 child (some e)
        ⟨some e :: r.trace, r.result.map fun child1 => replaced.getD (.rule child1)⟩
      | .choiceExpr alts =>
        let r := walkReplacerChildren visit s1 (.choiceExpr alts) alts
        ⟨some e :: r.1, r.2.map fun alts1 => replaced.getD (.choiceExpr alts1)⟩
      | .seqExpr es =>
        let r := walkReplacerChildren visit s1 (.seqExpr es) es
        ⟨some e :: r.1, r.2.map fun es1 => replaced.getD (.seqExpr es1)⟩
      | .actionExpr child =>
        let r := walkReplacer visit s1 child (some e)
        ⟨some e :: r.trace, r.result.map fun child1 => replaced.getD (.actionExpr child1)⟩
      | .labeledExpr child =>
        let r := walkReplacer visit s1 child (some e)
        ⟨some e :: r.trace, r.result.map fun child1 => replaced.getD (.labeledExpr child1)⟩
      | .andExpr child =>
        let r := walkReplacer visit s1 child (some e)
        ⟨some e :: r.trace, r.result.map fun child1 => replaced.getD (.andExpr child1)⟩
      | .notExpr child =>
        let r := walkReplacer visit s1 child (some e)
        ⟨some e :: r.trace, r.result.map fun child1 => replaced.getD (.notExpr child1)⟩
      | .oneOrMoreExpr child =>
        let r := walkReplacer visit s1 child (some e)
        ⟨some e :: r.trace, r.result.map fun child1 => replaced.getD (.oneOrMoreExpr child1)⟩
      | .zeroOrMoreExpr child =>
        let r := walkReplacer visit s1 child (some e)
        ⟨some e :: r.trace, r.result.map fun child1 => replaced.getD (.zeroOrMoreExpr child1)⟩
      | .zeroOrOneExpr child =>
        let r := walkReplacer visit s1 child (some e)
        ⟨some e :: r.trace, r.result.map fun child1 => replaced.getD (.zeroOrOneExpr child1)⟩
      | .andCodeExpr => ⟨[some e], .ok (replaced.getD e)⟩
      | .notCodeExpr => ⟨[some e], .ok (replaced.getD e)⟩
      | .stateCodeExpr => ⟨[some e], .ok (replaced.getD e)⟩
      | .anyMatcher => ⟨[some e], .ok (replaced.getD e)⟩
      | .charClassMatcher => ⟨[some e], .ok (replaced.getD e)⟩
      | .litMatcher => ⟨[some e], .ok (replaced.getD e)⟩
      | .ruleRefExpr => ⟨[some e], .ok (replaced.getD e)⟩
      | .unknownExpr => ⟨[some e], .error .unknownExpressionType⟩
termination_by sizeOf e

/-- The `for i, e := range ...` loops of `walkReplacer`. -/
def walkReplacerChildren {σ : Type} (visit : σ → Option Expression → VisitStep σ)
    (s : σ) (parent : Expression) :
    List Expression → List (Option Expression) × Except Fault (List Expression)
  | [] => ([], .ok [])
  | c :: rest =>
    let r := walkReplacer visit s c (some parent)
    match r.result with
    | .error f => (r.trace, .error f)
    | .ok c1 =>
      let rr := walkReplacerChildren visit s parent rest
      (r.trace ++ rr.1, rr.2.map fun cs => c1 :: cs)
termination_by l => sizeOf l

end

/-- A visitor handed to ast_walk.go `Walk`: either a plain `Visitor` or one
that also implements the optional `VisitReplacer` capability.  This models
the dynamic `v.(VisitReplacer)` type assertion as a closed sum. -/
inductive AnyVisitor (σ : Type) : Type where
  | plain (visit : σ → Option Expression → Option σ)
  | withReplace (visit : σ → Option Expression → VisitStep σ)

/-- ast_walk.go `Walk(v, expr)`: upgrades the visitor to `walkReplacer` when
it implements `VisitReplacer`, otherwise dispatches to `walkVisitor`. -/
def Walk {σ : Type} (v : AnyVisitor σ) (s : σ) (e : Expression) :
    List (Option Expression) × Except Fault Unit :=
  match v with
  | .withReplace visit =>
    let r := walkReplacer visit s e none
    (r.trace, r.result.map fun _ => ())
  | .plain visit => walkVisitor visit s e

/-- ast_walk.go `inspector.Visit(expr)`: `if f(expr) { return f }; return
nil`. -/
def inspector : (Option Expression → Bool) → Option Expression →
    Option (Option Expression → Bool) :=
  fun f oe => if f oe then some f else none

/-- ast_walk.go `Inspect(expr, f)`: `Walk(inspector(f), expr)`. -/
def Inspect (e : Expression) (f : Option Expression → Bool) :
    List (Option Expression) × Except Fault Unit :=
  Walk (.plain inspector) f e

end AstWalk

/-- Modelled from the spec: the visitor of §8's Inspector-equivalence
property, one that "continues descending if and only if f(node) is true",
never replacing anything.  Stated independently of the code's `inspector` so
the two can be compared. -/
def specContinueIff : (Option Expression → Bool) → Option Expression →
    AstBackref.Backref → VisitStep (Option Expression → Bool) :=
  fun f oe _ => { next := if f oe then some f else none, calls := [] }

/-- The always-Backref visitor corresponding to a plain `Visitor` of the
optional-capability variant: same continue/prune decisions, back-reference
ignored, replacer never invoked. -/
def liftPlain {σ : Type} (visit : σ → Option Expression → Option σ) :
    σ → Option Expression → AstBackref.Backref → VisitStep σ :=
  fun s oe _ => ⟨visit s oe, []⟩

/-- The always-Backref visitor corresponding to a `VisitReplacer` of the
optional-capability variant: same decisions and same replacer calls, the
extra parent information ignored. -/
def liftReplace {σ : Type} (visit : σ → Option Expression → VisitStep σ) :
    σ → Option Expression → AstBackref.Backref → VisitStep σ :=
  fun s oe _ => visit s oe


/-- The same visitor with the replacer calls it makes at the root visit (the
one receiving a parentless `Backref`) replaced by an arbitrary list `rs`:
models a visitor invoking the root back-reference's no-op write operation any
number of times with any arguments. -/
def overrideRootCalls {σ : Type} (visit : σ → Option Expression → AstBackref.Backref → VisitStep σ)
    (rs : List Expression) : σ → Option Expression → AstBackref.Backref → VisitStep σ :=
  fun s oe br =>
    match br.parent with
    | none => ⟨(visit s oe br).next, rs⟩
    | some _ => visit s oe br

/-- A visitor that always continues descending and never touches the
replacer. -/
def allCont : Unit → Option Expression → AstBackref.Backref → VisitStep Unit :=
  fun _ _ _ => ⟨some (), []⟩

/-- A visitor that, while visiting a LitMatcher, invokes the back-reference's
replacer once with a CharClassMatcher, and always continues descending. -/
def replaceLitVisitor : Unit → Option Expression → AstBackref.Backref → VisitStep Unit :=
  fun _ oe _ =>
    match oe with
    | some .litMatcher => ⟨some (), [.charClassMatcher]⟩
    | _ => ⟨some (), []⟩

/-- A visitor that returns a nil continuation exactly at ChoiceExpr nodes
and continues everywhere else, never touching the replacer. -/
def pruneChoice : Unit → Option Expression → AstBackref.Backref → VisitStep Unit :=
  fun _ oe _ =>
    match oe with
    | some (.choiceExpr _) => ⟨none, []⟩
    | _ => ⟨some (), []⟩

/-- A visitor that returns a nil continuation exactly at nodes outside the
closed taxonomy and continues everywhere else, never touching the
replacer. -/
def pruneUnknown : Unit → Option Expression → AstBackref.Backref → VisitStep Unit :=
  fun _ oe _ =>
    match oe with
    | some .unknownExpr => ⟨none, []⟩
    | _ => ⟨some (), []⟩

/-! Helper lemmas about the replacer semantics. -/

theorem replacerApply_nil (p : Option Expression) : replacerApply p [] = .ok none := rfl

theorem foldlM_replacerCall_root (cs : List Expression) :
    ∀ cur : Option Expression, cs.foldlM (replacerCall none) cur = .ok cur := by
  induction cs with
  | nil => intro cur; rfl
  | cons c rest ih => intro cur; simpa [List.foldlM, replacerCall] using ih cur

/-- The root replacer (`func(expr Expression) {}`) never faults and never
produces a slot overwrite, whatever sequence of calls it receives. -/
theorem replacerApply_root (cs : List Expression) : replacerApply none cs = .ok none :=
  foldlM_replacerCall_root cs none

/-! The walk leaves the tree unchanged when the visitor never invokes the
replacer closures. -/

mutual

theorem walk0_nocalls {σ : Type} (visit : σ → Option Expression → AstBackref.Backref → VisitStep σ)
    (h : ∀ s oe br, (visit s oe br).calls = []) (s : σ) (e : Expression)
    (parent0 : Option Expression) (hw : e.wellFormed = true) :
    (AstBackref.walk0 visit s e parent0).result = .ok e := by
  rw [AstBackref.walk0]
  simp only [h, replacerApply_nil]
  cases hn : (visit s (some e) ⟨parent0⟩).next with
  | none => rfl
  | some s1 =>
    cases e with
    | grammar rules =>
      have hrec := walkChildren_nocalls visit h s1 (.grammar rules) rules
        (by simp [Expression.wellFormed] at hw; exact hw)
      simp [hrec, Except.map]
    | rule child =>
      have hrec := walk0_nocalls visit h s1 child (some (.rule child))
        (by simp [Expression.wellFormed] at hw; exact hw)
      simp [hrec, Except.map]
    | choiceExpr alts =>
      have hrec := walkChildren_nocalls visit h s1 (.choiceExpr alts) alts
        (by simp [Expression.wellFormed] at hw; exact hw)
      simp [hrec, Except.map]
    | seqExpr es =>
      have hrec := walkChildren_nocalls visit h s1 (.seqExpr es) es
        (by simp [Expression.wellFormed] at hw; exact hw)
      simp [hrec, Except.map]
    | actionExpr child =>
      have hrec := walk0_nocalls visit h s1 child (some (.actionExpr child))
        (by simp [Expression.wellFormed] at hw; exact hw)
      simp [hrec, Except.map]
    | labeledExpr child =>
      have hrec := walk0_nocalls visit h s1 child (some (.labeledExpr child))
        (by simp [Expression.wellFormed] at hw; exact hw)
      simp [hrec, Except.map]
    | andExpr child =>
      have hrec := walk0_nocalls visit h s1 child (some (.andExpr child))
        (by simp [Expression.wellFormed] at hw; exact hw)
      simp [hrec, Except.map]
    | notExpr child =>
      have hrec := walk0_nocalls visit h s1 child (some (.notExpr child))
        (by simp [Expression.wellFormed] at hw; exact hw)
      simp [hrec, Except.map]
    | oneOrMoreExpr child =>
      have hrec := walk0_nocalls visit h s1 child (some (.oneOrMoreExpr child))
        (by simp [Expression.wellFormed] at hw; exact hw)
      simp [hrec, Except.map]
    | zeroOrMoreExpr child =>
      have hrec := walk0_nocalls visit h s1 child (some (.zeroOrMoreExpr child))
        (by simp [Expression.wellFormed] at hw; exact hw)
      simp [hrec, Except.map]
    | zeroOrOneExpr child =>
      have hrec := walk0_nocalls visit h s1 child (some (.zeroOrOneExpr child))
        (by simp [Expression.wellFormed] at hw; exact hw)
      simp [hrec, Except.map]
    | andCodeExpr => rfl
    | notCodeExpr => rfl
    | stateCodeExpr => rfl
    | anyMatcher => rfl
    | charClassMatcher => rfl
    | litMatcher => rfl
    | ruleRefExpr => rfl
    | unknownExpr => simp [Expression.wellFormed] at hw
termination_by sizeOf e

theorem walkChildren_nocalls {σ : Type} (visit : σ → Option Expression → AstBackref.Backref → VisitStep σ)
    (h : ∀ s oe br, (visit s oe br).calls = []) (s : σ) (parent : Expression) :
    ∀ l : List Expression, Expression.wellFormedList l = true →
      (AstBackref.walkChildren visit s parent l).2 = .ok l
  | [], _ => by rw [AstBackref.walkChildren]
  | c :: rest, hw => by
    rw [AstBackref.walkChildren]
    have hw1 : c.wellFormed = true := by
      simp [Expression.wellFormedList] at hw; exact hw.1
    have hw2 : Expression.wellFormedList rest = true := by
      simp [Expression.wellFormedList] at hw; exact hw.2
    have h1 := walk0_nocalls visit h s c (some parent) hw1
    have h2 := walkChildren_nocalls visit h s parent rest hw2
    simp [h1, h2, Except.map]
termination_by l => sizeOf l

end

/-! Sub-walks never hand out a root back-reference: every recursive call of
`walk0` passes `some parent`.  Two visitors that agree on every visit with a
non-root back-reference therefore produce identical sub-walks. -/

mutual

theorem walk0_agree {σ : Type} (visit1 visit2 : σ → Option Expression → AstBackref.Backref → VisitStep σ)
    (hag : ∀ s oe q, visit1 s oe ⟨some q⟩ = visit2 s oe ⟨some q⟩)
    (s : σ) (e : Expression) (q : Expression) :
    AstBackref.walk0 visit1 s e (some q) = AstBackref.walk0 visit2 s e (some q) := by
  rw [AstBackref.walk0, AstBackref.walk0]
  rw [hag s (some e) q]
  cases hr : replacerApply (some q) (visit2 s (some e) ⟨some q⟩).calls with
  | error f => rfl
  | ok replaced =>
    cases hn : (visit2 s (some e) ⟨some q⟩).next with
    | none => rfl
    | some s1 =>
      cases e with
      | grammar rules =>
        simp [walkChildren_agree visit1 visit2 hag s1 (.grammar rules) rules]
      | rule child =>
        simp [walk0_agree visit1 visit2 hag s1 child (.rule child)]
      | choiceExpr alts =>
        simp [walkChildren_agree visit1 visit2 hag s1 (.choiceExpr alts) alts]
      | seqExpr es =>
        simp [walkChildren_agree visit1 visit2 hag s1 (.seqExpr es) es]
      | actionExpr child =>
        simp [walk0_agree visit1 visit2 hag s1 child (.actionExpr child)]
      | labeledExpr child =>
        simp [walk0_agree visit1 visit2 hag s1 child (.labeledExpr child)]
      | andExpr child =>
        simp [walk0_agree visit1 visit2 hag s1 child (.andExpr child)]
      | notExpr child =>
        simp [walk0_agree visit1 visit2 hag s1 child (.notExpr child)]
      | oneOrMoreExpr child =>
        simp [walk0_agree visit1 visit2 hag s1 child (.oneOrMoreExpr child)]
      | zeroOrMoreExpr child =>
        simp [walk0_agree visit1 visit2 hag s1 child (.zeroOrMoreExpr child)]
      | zeroOrOneExpr child =>
        simp [walk0_agree visit1 visit2 hag s1 child (.zeroOrOneExpr child)]
      | andCodeExpr => rfl
      | notCodeExpr => rfl
      | stateCodeExpr => rfl
      | anyMatcher => rfl
      | charClassMatcher => rfl
      | litMatcher => rfl
      | ruleRefExpr => rfl
      | unknownExpr => rfl
termination_by sizeOf e

theorem walkChildren_agree {σ : Type} (visit1 visit2 : σ → Option Expression → AstBackref.Backref → VisitStep σ)
    (hag : ∀ s oe q, visit1 s oe ⟨some q⟩ = visit2 s oe ⟨some q⟩)
    (s : σ) (parent : Expression) :
    ∀ l : List Expression,
      AstBackref.walkChildren visit1 s parent l = AstBackref.walkChildren visit2 s parent l
  | [] => by rw [AstBackref.walkChildren, AstBackref.walkChildren]
  | c :: rest => by
    rw [AstBackref.walkChildren, AstBackref.walkChildren]
    rw [walk0_agree visit1 visit2 hag s c parent]
    rw [walkChildren_agree visit1 visit2 hag s parent rest]
termination_by l => sizeOf l

end

/-! The walkers never invoke the visitor with a nil expression: every trace
entry is `some _`. -/

mutual

theorem walk0_trace_no_nil {σ : Type} (visit : σ → Option Expression → AstBackref.Backref → VisitStep σ)
    (s : σ) (e : Expression) (parent0 : Option Expression) :
    Option.none ∉ (AstBackref.walk0 visit s e parent0).trace := by
  rw [AstBackref.walk0]
  cases hr : replacerApply parent0 (visit s (some e) ⟨parent0⟩).calls with
  | error f => simp
  | ok replaced =>
    cases hn : (visit s (some e) ⟨parent0⟩).next with
    | none => simp
    | some s1 =>
      cases e with
      | grammar rules =>
        simp [walkChildren_trace_no_nil visit s1 (.grammar rules) rules]
      | rule child =>
        simp [walk0_trace_no_nil visit s1 child (some (.rule child))]
      | choiceExpr alts =>
        simp [walkChildren_trace_no_nil visit s1 (.choiceExpr alts) alts]
      | seqExpr es =>
        simp [walkChildren_trace_no_nil visit s1 (.seqExpr es) es]
      | actionExpr child =>
        simp [walk0_trace_no_nil visit s1 child (some (.actionExpr child))]
      | labeledExpr child =>
        simp [walk0_trace_no_nil visit s1 child (some (.labeledExpr child))]
      | andExpr child =>
        simp [walk0_trace_no_nil visit s1 child (some (.andExpr child))]
      | notExpr child =>
        simp [walk0_trace_no_nil visit s1 child (some (.notExpr child))]
      | oneOrMoreExpr child =>
        simp [walk0_trace_no_nil visit s1 child (some (.oneOrMoreExpr child))]
      | zeroOrMoreExpr child =>
        simp [walk0_trace_no_nil visit s1 child (some (.zeroOrMoreExpr child))]
      | zeroOrOneExpr child =>
        simp [walk0_trace_no_nil visit s1 child (some (.zeroOrOneExpr child))]
      | andCodeExpr => simp
      | notCodeExpr => simp
      | stateCodeExpr => simp
      | anyMatcher => simp
      | charClassMatcher => simp
      | litMatcher => simp
      | ruleRefExpr => simp
      | unknownExpr => simp
termination_by sizeOf e

theorem walkChildren_trace_no_nil {σ : Type} (visit : σ → Option Expression → AstBackref.Backref → VisitStep σ)
    (s : σ) (parent : Expression) :
    ∀ l : List Expression, Option.none ∉ (AstBackref.walkChildren visit s parent l).1
  | [] => by rw [AstBackref.walkChildren]; simp
  | c :: rest => by
    rw [AstBackref.walkChildren]
    have h1 := walk0_trace_no_nil visit s c (some parent)
    have h2 := walkChildren_trace_no_nil visit s parent rest
    split
    · simpa using h1
    · simp only []
      intro hmem
      rcases List.mem_append.mp (by simpa using hmem) with hm | hm
      · exact h1 hm
      · exact h2 hm
termination_by l => sizeOf l

end


theorem except_map_unit {ε α β : Type} (f : α → β) (y : Except ε α) :
    (y.map f).map (fun _ => ()) = y.map fun _ => () := by
  cases y <;> rfl

mutual

theorem walkVisitor_eq_walk0 {σ : Type} (visit : σ → Option Expression → Option σ)
    (s : σ) (e : Expression) (parent0 : Option Expression) :
    AstWalk.walkVisitor visit s e
      = ((AstBackref.walk0 (liftPlain visit) s e parent0).trace,
         (AstBackref.walk0 (liftPlain visit) s e parent0).result.map fun _ => ()) := by
  rw [AstWalk.walkVisitor, AstBackref.walk0]
  simp only [liftPlain, replacerApply_nil]
  cases hv : visit s (some e) with
  | none => rfl
  | some s1 =>
    cases e with
    | grammar rules =>
      have hrec := walkVisitorChildren_eq_walkChildren visit s1 (.grammar rules) rules
      simp [hrec, except_map_unit]
    | rule child =>
      have hrec := walkVisitor_eq_walk0 visit s1 child (some (.rule child))
      simp [hrec, except_map_unit]
    | choiceExpr alts =>
      have hrec := walkVisitorChildren_eq_walkChildren visit s1 (.choiceExpr alts) alts
      simp [hrec, except_map_unit]
    | seqExpr es =>
      have hrec := walkVisitorChildren_eq_walkChildren visit s1 (.seqExpr es) es
      simp [hrec, except_map_unit]
    | actionExpr child =>
      have hrec := walkVisitor_eq_walk0 visit s1 child (some (.actionExpr child))
      simp [hrec, except_map_unit]
    | labeledExpr child =>
      have hrec := walkVisitor_eq_walk0 visit s1 child (some (.labeledExpr child))
      simp [hrec, except_map_unit]
    | andExpr child =>
      have hrec := walkVisitor_eq_walk0 visit s1 child (some (.andExpr child))
      simp [hrec, except_map_unit]
    | notExpr child =>
      have hrec := walkVisitor_eq_walk0 visit s1 child (some (.notExpr child))
      simp [hrec, except_map_unit]
    | oneOrMoreExpr child =>
      have hrec := walkVisitor_eq_walk0 visit s1 child (some (.oneOrMoreExpr child))
      simp [hrec, except_map_unit]
    | zeroOrMoreExpr child =>
      have hrec := walkVisitor_eq_walk0 visit s1 child (some (.zeroOrMoreExpr child))
      simp [hrec, except_map_unit]
    | zeroOrOneExpr child =>
      have hrec := walkVisitor_eq_walk0 visit s1 child (some (.zeroOrOneExpr child))
      simp [hrec, except_map_unit]
    | andCodeExpr => rfl
    | notCodeExpr => rfl
    | stateCodeExpr => rfl
    | anyMatcher => rfl
    | charClassMatcher => rfl
    | litMatcher => rfl
    | ruleRefExpr => rfl
    | unknownExpr => rfl
termination_by sizeOf e

theorem walkVisitorChildren_eq_walkChildren {σ : Type} (visit : σ → Option Expression → Option σ)
    (s : σ) (parent : Expression) :
    ∀ l : List Expression,
      AstWalk.walkVisitorChildren visit s l
        = ((AstBackref.walkChildren (liftPlain visit) s parent l).1,
           (AstBackref.walkChildren (liftPlain visit) s parent l).2.map fun _ => ())
  | [] => by rw [AstWalk.walkVisitorChildren, AstBackref.walkChildren]; rfl
  | c :: rest => by
    rw [AstWalk.walkVisitorChildren, AstBackref.walkChildren]
    have h1 := walkVisitor_eq_walk0 visit s c (some parent)
    have h2 := walkVisitorChildren_eq_walkChildren visit s parent rest
    cases hr : (AstBackref.walk0 (liftPlain visit) s c (some parent)).result with
    | error f => simp [h1, h2, hr, Except.map]
    | ok c1 =>
      simp [h1, h2, hr, Except.map]
      cases (AstBackref.walkChildren (liftPlain visit) s parent rest).2 <;> rfl
termination_by l => sizeOf l

end

mutual

theorem walkReplacer_eq_walk0 {σ : Type} (visit : σ → Option Expression → VisitStep σ)
    (s : σ) (e : Expression) (parent0 : Option Expression) :
    AstWalk.walkReplacer visit s e parent0
      = AstBackref.walk0 (liftReplace visit) s e parent0 := by
  rw [AstWalk.walkReplacer, AstBackref.walk0]
  simp only [liftReplace]
  cases hr : replacerApply parent0 (visit s (some e)).calls with
  | error f => rfl
  | ok replaced =>
    cases hn : (visit s (some e)).next with
    | none => rfl
    | some s1 =>
      cases e with
      | grammar rules =>
        simp [walkReplacerChildren_eq_walkChildren visit s1 (.grammar rules) rules]
      | rule child =>
        simp [walkReplacer_eq_walk0 visit s1 child (some (.rule child))]
      | choiceExpr alts =>
        simp [walkReplacerChildren_eq_walkChildren visit s1 (.choiceExpr alts) alts]
      | seqExpr es =>
        simp [walkReplacerChildren_eq_walkChildren visit s1 (.seqExpr es) es]
      | actionExpr child =>
        simp [walkReplacer_eq_walk0 visit s1 child (some (.actionExpr child))]
      | labeledExpr child =>
        simp [walkReplacer_eq_walk0 visit s1 child (some (.labeledExpr child))]
      | andExpr child =>
        simp [walkReplacer_eq_walk0 visit s1 child (some (.andExpr child))]
      | notExpr child =>
        simp [walkReplacer_eq_walk0 visit s1 child (some (.notExpr child))]
      | oneOrMoreExpr child =>
        simp [walkReplacer_eq_walk0 visit s1 child (some (.oneOrMoreExpr child))]
      | zeroOrMoreExpr child =>
        simp [walkReplacer_eq_walk0 visit s1 child (some (.zeroOrMoreExpr child))]
      | zeroOrOneExpr child =>
        simp [walkReplacer_eq_walk0 visit s1 child (some (.zeroOrOneExpr child))]
      | andCodeExpr => rfl
      | notCodeExpr => rfl
      | stateCodeExpr => rfl
      | anyMatcher => rfl
      | charClassMatcher => rfl
      | litMatcher => rfl
      | ruleRefExpr => rfl
      | unknownExpr => rfl
termination_by sizeOf e

theorem walkReplacerChildren_eq_walkChildren {σ : Type} (visit : σ → Option Expression → VisitStep σ)
    (s : σ) (parent : Expression) :
    ∀ l : List Expression,
      AstWalk.walkReplacerChildren visit s parent l
        = AstBackref.walkChildren (liftReplace visit) s parent l
  | [] => by rw [AstWalk.walkReplacerChildren, AstBackref.walkChildren]
  | c :: rest => by
    rw [AstWalk.walkReplacerChildren, AstBackref.walkChildren]
    rw [walkReplacer_eq_walk0 visit s c (some parent)]
    rw [walkReplacerChildren_eq_walkChildren visit s parent rest]
termination_by l => sizeOf l

end

theorem replacerApply_one (p : Option Expression) (c : Expression) :
    replacerApply p [c] = replacerCall p none c := by
  unfold replacerApply
  rw [List.foldlM_cons]
  cases replacerCall p none c <;> rfl

/-! Claim theorems. -/

/-- C1: the claim (and the `Walk`/`Visitor` doc comments of both source
files) says that after a node's children are walked the continuation visitor
is re-invoked with a nil sentinel (`w.Visit(nil)`).  The code never does
this: for every tree and every visitor, on both walker variants, no visit
call ever receives a nil expression — every trace entry is `some _`. -/
theorem walkers_never_call_visit_nil {σ : Type}
    (visitB : σ → Option Expression → AstBackref.Backref → VisitStep σ)
    (visitP : σ → Option Expression → Option σ)
    (visitR : σ → Option Expression → VisitStep σ)
    (s : σ) (e : Expression) :
    Option.none ∉ (AstBackref.Walk visitB s e).trace
      ∧ Option.none ∉ (AstWalk.Walk (.plain visitP) s e).1
      ∧ Option.none ∉ (AstWalk.Walk (.withReplace visitR) s e).1 := by
  refine ⟨walk0_trace_no_nil visitB s e none, ?_, ?_⟩
  · show Option.none ∉ (AstWalk.walkVisitor visitP s e).1
    rw [walkVisitor_eq_walk0 visitP s e none]
    exact walk0_trace_no_nil (liftPlain visitP) s e none
  · show Option.none ∉ (AstWalk.walkReplacer visitR s e none).trace
    rw [walkReplacer_eq_walk0 visitR s e none]
    exact walk0_trace_no_nil (liftReplace visitR) s e none

/-- C2 counterexample: visiting a OneOrMoreExpr whose child is a LitMatcher
and replacing that LitMatcher with a CharClassMatcher via the back-reference
(the replacer handed out while the LitMatcher is visited, whose parent is the
OneOrMoreExpr) does NOT make the walk visit the CharClassMatcher: the walker
read the child reference before that visit call, so the trace is exactly the
OneOrMoreExpr followed by the original LitMatcher, and the CharClassMatcher
is never visited. -/
theorem backref_replacement_not_visited :
    (AstBackref.Walk replaceLitVisitor () (.oneOrMoreExpr .litMatcher)).trace
        = [some (.oneOrMoreExpr .litMatcher), some .litMatcher]
      ∧ some Expression.charClassMatcher
          ∉ (AstBackref.Walk replaceLitVisitor () (.oneOrMoreExpr .litMatcher)).trace := by
  have h : (AstBackref.Walk replaceLitVisitor () (.oneOrMoreExpr .litMatcher)).trace
      = [some (.oneOrMoreExpr .litMatcher), some .litMatcher] := by
    simp [AstBackref.Walk, AstBackref.walk0, replaceLitVisitor, replacerApply_nil,
      replacerApply_one, replacerCall, Expression.isRule, Except.map]
  refine ⟨h, ?_⟩
  rw [h]
  simp

/-- C2 amended: the back-reference write performed while the LitMatcher is
being visited installs the CharClassMatcher in the OneOrMoreExpr's child slot
immediately — the tree after the walk holds the CharClassMatcher — but the
ongoing walk continues with the node it already read: it visits the original
LitMatcher and never the CharClassMatcher. -/
theorem backref_replacement_updates_slot_not_trace :
    (AstBackref.Walk replaceLitVisitor () (.oneOrMoreExpr .litMatcher)).result
        = .ok (.oneOrMoreExpr .charClassMatcher)
      ∧ (AstBackref.Walk replaceLitVisitor () (.oneOrMoreExpr .litMatcher)).trace
        = [some (.oneOrMoreExpr .litMatcher), some .litMatcher] := by
  constructor <;>
    simp [AstBackref.Walk, AstBackref.walk0, replaceLitVisitor, replacerApply_nil,
      replacerApply_one, replacerCall, Expression.isRule, Except.map]

/-- C3: the write operation for a slot of a Grammar's Rules sequence is
fatal at apply time when handed a non-Rule expression, and with a Rule it
succeeds and installs that Rule in the slot; the walker's per-call replacer
semantics for a Grammar parent faults or overwrites accordingly. -/
theorem grammar_slot_write_rule_typing (rules : List Expression) (i : Nat) (e : Expression)
    (hi : i < rules.length) :
    (e.isRule = false → grammarSlotWrite rules i e = .error .nonRuleReplacement)
    ∧ (e.isRule = true →
        grammarSlotWrite rules i e = .ok (rules.set i e)
          ∧ (rules.set i e)[i]? = some e)
    ∧ (∀ cur, replacerCall (some (.grammar rules)) cur e
        = if e.isRule then .ok (some e) else .error .nonRuleReplacement) := by
  refine ⟨fun hf => ?_, fun ht => ⟨?_, ?_⟩, fun cur => rfl⟩
  · simp [grammarSlotWrite, hf]
  · simp [grammarSlotWrite, ht]
  · exact List.getElem?_set_eq_of_lt e hi

/-- Witness for C3 at a concrete Grammar: writing a LitMatcher into slot 0
faults, writing a Rule succeeds and installs it. -/
theorem grammar_slot_write_rule_typing_witness :
    grammarSlotWrite [.rule .litMatcher] 0 .litMatcher = .error .nonRuleReplacement
      ∧ grammarSlotWrite [.rule .litMatcher] 0 (.rule .anyMatcher)
        = .ok [.rule .anyMatcher] :=
  ⟨(grammar_slot_write_rule_typing [.rule .litMatcher] 0 .litMatcher
      (by simp)).1 rfl,
   ((grammar_slot_write_rule_typing [.rule .litMatcher] 0 (.rule .anyMatcher)
      (by simp)).2.1 rfl).1⟩

theorem walkChildren_nil {σ : Type} (visit : σ → Option Expression → AstBackref.Backref → VisitStep σ)
    (s : σ) (parent : Expression) :
    AstBackref.walkChildren visit s parent [] = ([], .ok []) := by
  rw [AstBackref.walkChildren]

/-- C4 -/
theorem walk_preorder_declared_order {σ : Type}
    (visit : σ → Option Expression → AstBackref.Backref → VisitStep σ) (s : σ) :
    (∀ e p, ∃ t, (AstBackref.walk0 visit s e p).trace = some e :: t)
    ∧ (∀ A B C p s1,
        (visit s (some (.choiceExpr [A, B, C])) ⟨p⟩).calls = [] →
        (visit s (some (.choiceExpr [A, B, C])) ⟨p⟩).next = some s1 →
        (∃ a, (AstBackref.walk0 visit s1 A (some (.choiceExpr [A, B, C]))).result = .ok a) →
        (∃ b, (AstBackref.walk0 visit s1 B (some (.choiceExpr [A, B, C]))).result = .ok b) →
        (AstBackref.walk0 visit s (.choiceExpr [A, B, C]) p).trace
          = some (.choiceExpr [A, B, C])
            :: ((AstBackref.walk0 visit s1 A (some (.choiceExpr [A, B, C]))).trace
              ++ (AstBackref.walk0 visit s1 B (some (.choiceExpr [A, B, C]))).trace
              ++ (AstBackref.walk0 visit s1 C (some (.choiceExpr [A, B, C]))).trace))
    ∧ (∀ X Y p s1,
        (visit s (some (.seqExpr [X, Y])) ⟨p⟩).calls = [] →
        (visit s (some (.seqExpr [X, Y])) ⟨p⟩).next = some s1 →
        (∃ x, (AstBackref.walk0 visit s1 X (some (.seqExpr [X, Y]))).result = .ok x) →
        (AstBackref.walk0 visit s (.seqExpr [X, Y]) p).trace
          = some (.seqExpr [X, Y])
            :: ((AstBackref.walk0 visit s1 X (some (.seqExpr [X, Y]))).trace
              ++ (AstBackref.walk0 visit s1 Y (some (.seqExpr [X, Y]))).trace)) := by
  refine ⟨fun e p => ?_, fun A B C p s1 hc hn hA hB => ?_, fun X Y p s1 hc hn hX => ?_⟩
  · rw [AstBackref.walk0]
    cases hr : replacerApply p (visit s (some e) ⟨p⟩).calls with
    | error f => exact ⟨[], rfl⟩
    | ok replaced =>
      cases hn : (visit s (some e) ⟨p⟩).next with
      | none => exact ⟨[], rfl⟩
      | some s1 => cases e <;> exact ⟨_, rfl⟩
  · obtain ⟨a, ha⟩ := hA
    obtain ⟨b, hb⟩ := hB
    rw [AstBackref.walk0]
    simp only [hc, replacerApply_nil, hn]
    rw [AstBackref.walkChildren]
    simp only [ha]
    rw [AstBackref.walkChildren]
    simp only [hb]
    rw [AstBackref.walkChildren]
    cases hC : (AstBackref.walk0 visit s1 C (some (.choiceExpr [A, B, C]))).result <;>
      simp [hC, walkChildren_nil, List.append_assoc]
  · obtain ⟨x, hx⟩ := hX
    rw [AstBackref.walk0]
    simp only [hc, replacerApply_nil, hn]
    rw [AstBackref.walkChildren]
    simp only [hx]
    rw [AstBackref.walkChildren]
    cases hY : (AstBackref.walk0 visit s1 Y (some (.seqExpr [X, Y]))).result <;>
      simp [hY, walkChildren_nil, List.append_assoc]

/-- witness C4 -/
theorem walk_preorder_declared_order_witness :
    (AstBackref.walk0 allCont () (.choiceExpr [.litMatcher, .anyMatcher, .ruleRefExpr]) none).trace
      = some (.choiceExpr [.litMatcher, .anyMatcher, .ruleRefExpr])
        :: ((AstBackref.walk0 allCont () .litMatcher
              (some (.choiceExpr [.litMatcher, .anyMatcher, .ruleRefExpr]))).trace
          ++ (AstBackref.walk0 allCont () .anyMatcher
              (some (.choiceExpr [.litMatcher, .anyMatcher, .ruleRefExpr]))).trace
          ++ (AstBackref.walk0 allCont () .ruleRefExpr
              (some (.choiceExpr [.litMatcher, .anyMatcher, .ruleRefExpr]))).trace) :=
  (walk_preorder_declared_order allCont ()).2.1 .litMatcher .anyMatcher .ruleRefExpr none ()
    rfl rfl
    ⟨.litMatcher, by simp [AstBackref.walk0, allCont, replacerApply_nil]⟩
    ⟨.anyMatcher, by simp [AstBackref.walk0, allCont, replacerApply_nil]⟩

/-- C5 -/
theorem prune_skips_children_continues_siblings {σ : Type}
    (visit : σ → Option Expression → AstBackref.Backref → VisitStep σ) (s : σ) :
    (∀ e p, (visit s (some e) ⟨p⟩).next = none →
      (AstBackref.walk0 visit s e p).trace = [some e])
    ∧ (∀ alts rest s1,
        (visit s (some (.seqExpr (.choiceExpr alts :: rest))) ⟨none⟩).next = some s1 →
        (visit s1 (some (.choiceExpr alts))
            ⟨some (.seqExpr (.choiceExpr alts :: rest))⟩).next = none →
        (visit s1 (some (.choiceExpr alts))
            ⟨some (.seqExpr (.choiceExpr alts :: rest))⟩).calls = [] →
        (AstBackref.walk0 visit s (.seqExpr (.choiceExpr alts :: rest)) none).trace
          = some (.seqExpr (.choiceExpr alts :: rest)) :: some (.choiceExpr alts)
            :: (AstBackref.walkChildren visit s1
                (.seqExpr (.choiceExpr alts :: rest)) rest).1) := by
  constructor
  · intro e p hn
    rw [AstBackref.walk0]
    cases hr : replacerApply p (visit s (some e) ⟨p⟩).calls with
    | error f => rfl
    | ok replaced => simp only [hn]
  · intro alts rest s1 hn1 hn2 hc2
    rw [AstBackref.walk0]
    rw [replacerApply_root]
    simp only [hn1]
    rw [AstBackref.walkChildren]
    rw [AstBackref.walk0]
    simp only [hc2, replacerApply_nil, hn2]
    simp

/-- witness C5 -/
theorem prune_skips_children_continues_siblings_witness :
    (AstBackref.walk0 pruneChoice ()
        (.seqExpr (.choiceExpr [.litMatcher] :: [.anyMatcher])) none).trace
      = some (.seqExpr (.choiceExpr [.litMatcher] :: [.anyMatcher]))
        :: some (.choiceExpr [.litMatcher])
        :: (AstBackref.walkChildren pruneChoice ()
            (.seqExpr (.choiceExpr [.litMatcher] :: [.anyMatcher])) [.anyMatcher]).1 :=
  (prune_skips_children_continues_siblings pruneChoice ()).2 [.litMatcher] [.anyMatcher] ()
    rfl rfl rfl

/-- C6: while visiting the root of the walk (the only visit whose
back-reference has no parent), invoking the write operation any number of
times with any expressions never faults, never produces a slot overwrite,
and leaves the entire walk — trace and resulting tree — identical to the
walk in which those calls were not made. -/
theorem root_backref_write_noop {σ : Type}
    (visit : σ → Option Expression → AstBackref.Backref → VisitStep σ)
    (s : σ) (e : Expression) (rs : List Expression) :
    replacerApply none rs = .ok none
      ∧ AstBackref.walk0 (overrideRootCalls visit rs) s e none
        = AstBackref.walk0 visit s e none := by
  have hag : ∀ s0 oe q, overrideRootCalls visit rs s0 oe ⟨some q⟩ = visit s0 oe ⟨some q⟩ :=
    fun _ _ _ => rfl
  refine ⟨replacerApply_root rs, ?_⟩
  rw [AstBackref.walk0, AstBackref.walk0]
  show (match replacerApply none (⟨(visit s (some e) ⟨none⟩).next, rs⟩ : VisitStep σ).calls with
    | .error f => _ | .ok replaced => _) = _
  rw [replacerApply_root, replacerApply_root]
  rw [show (overrideRootCalls visit rs s (some e) ⟨none⟩).next
      = (visit s (some e) ⟨none⟩).next from rfl]
  cases hn : (visit s (some e) ⟨none⟩).next with
  | none => rfl
  | some s1 =>
    cases e with
    | grammar rules =>
      simp [walkChildren_agree (overrideRootCalls visit rs) visit hag s1 (.grammar rules) rules]
    | rule child =>
      simp [walk0_agree (overrideRootCalls visit rs) visit hag s1 child (.rule child)]
    | choiceExpr alts =>
      simp [walkChildren_agree (overrideRootCalls visit rs) visit hag s1 (.choiceExpr alts) alts]
    | seqExpr es =>
      simp [walkChildren_agree (overrideRootCalls visit rs) visit hag s1 (.seqExpr es) es]
    | actionExpr child =>
      simp [walk0_agree (overrideRootCalls visit rs) visit hag s1 child (.actionExpr child)]
    | labeledExpr child =>
      simp [walk0_agree (overrideRootCalls visit rs) visit hag s1 child (.labeledExpr child)]
    | andExpr child =>
      simp [walk0_agree (overrideRootCalls visit rs) visit hag s1 child (.andExpr child)]
    | notExpr child =>
      simp [walk0_agree (overrideRootCalls visit rs) visit hag s1 child (.notExpr child)]
    | oneOrMoreExpr child =>
      simp [walk0_agree (overrideRootCalls visit rs) visit hag s1 child (.oneOrMoreExpr child)]
    | zeroOrMoreExpr child =>
      simp [walk0_agree (overrideRootCalls visit rs) visit hag s1 child (.zeroOrMoreExpr child)]
    | zeroOrOneExpr child =>
      simp [walk0_agree (overrideRootCalls visit rs) visit hag s1 child (.zeroOrOneExpr child)]
    | andCodeExpr => rfl
    | notCodeExpr => rfl
    | stateCodeExpr => rfl
    | anyMatcher => rfl
    | charClassMatcher => rfl
    | litMatcher => rfl
    | ruleRefExpr => rfl
    | unknownExpr => rfl

/-- C7 counterexample: a visitor that returns a nil continuation at the
unknown node: the walk visits the unknown node, raises no fault, and
continues past it to the later sibling — the claim's "always fatal, never
continues past it" fails. -/
theorem unknown_node_pruned_no_fault :
    (AstBackref.Walk pruneUnknown () (.seqExpr [.unknownExpr, .litMatcher])).trace
        = [some (.seqExpr [.unknownExpr, .litMatcher]), some .unknownExpr, some .litMatcher]
      ∧ (AstBackref.Walk pruneUnknown () (.seqExpr [.unknownExpr, .litMatcher])).result
        = .ok (.seqExpr [.unknownExpr, .litMatcher]) := by
  constructor <;>
    simp [AstBackref.Walk, AstBackref.walk0, AstBackref.walkChildren, pruneUnknown,
      replacerApply_nil, Except.map]

/-- C7 amended: when the walker reaches a node outside the closed taxonomy
AND the visitor returns a non-nil continuation for it, the traversal aborts
with the unknown-expression fault at that point: nothing below it or after
it is walked (later siblings are not visited). -/
theorem unknown_node_with_continuation_aborts {σ : Type}
    (visit : σ → Option Expression → AstBackref.Backref → VisitStep σ) (s : σ)
    (hc : ∀ p, (visit s (some .unknownExpr) ⟨p⟩).calls = [])
    (hn : ∀ p, ∃ s1, (visit s (some .unknownExpr) ⟨p⟩).next = some s1) :
    (∀ p, AstBackref.walk0 visit s .unknownExpr p
        = ⟨[some .unknownExpr], .error .unknownExpressionType⟩)
      ∧ ∀ parent rest,
          AstBackref.walkChildren visit s parent (.unknownExpr :: rest)
            = ([some .unknownExpr], .error .unknownExpressionType) := by
  have h1 : ∀ p, AstBackref.walk0 visit s .unknownExpr p
      = ⟨[some .unknownExpr], .error .unknownExpressionType⟩ := by
    intro p
    obtain ⟨s1, hs1⟩ := hn p
    rw [AstBackref.walk0]
    simp only [hc p, replacerApply_nil, hs1]
  refine ⟨h1, fun parent rest => ?_⟩
  rw [AstBackref.walkChildren]
  simp only [h1 (some parent)]

/-- witness C7: with the always-continue visitor, walking the unknown node
aborts immediately with the unknown-expression fault. -/
theorem unknown_node_with_continuation_aborts_witness :
    AstBackref.walk0 allCont () .unknownExpr none
      = ⟨[some .unknownExpr], .error .unknownExpressionType⟩ :=
  (unknown_node_with_continuation_aborts allCont ()
    (fun _ => rfl) (fun _ => ⟨(), rfl⟩)).1 none

/-- C8: `Inspect(root, f)` produces exactly the trace of `Walk` run with the
spec's "continue iff f(node)" visitor, and performs no replacement: the tree
is returned unchanged. -/
theorem inspect_matches_spec_visitor (f : Option Expression → Bool) (e : Expression)
    (hw : e.wellFormed = true) :
    (AstBackref.Inspect e f).trace = (AstBackref.Walk specContinueIff f e).trace
      ∧ (AstBackref.Inspect e f).result = .ok e := by
  have hfun : AstBackref.inspector = specContinueIff := by
    funext g oe br
    by_cases h : g oe <;> simp [AstBackref.inspector, specContinueIff, h]
  have hcalls : ∀ (g : Option Expression → Bool) (oe : Option Expression)
      (br : AstBackref.Backref), (AstBackref.inspector g oe br).calls = [] := by
    intro g oe br
    by_cases h : g oe <;> simp [AstBackref.inspector, h]
  constructor
  · rw [AstBackref.Inspect, hfun]
  · rw [AstBackref.Inspect, AstBackref.Walk]
    exact walk0_nocalls AstBackref.inspector hcalls f e none hw

/-- witness C8: a concrete inspection of a single LitMatcher. -/
theorem inspect_matches_spec_visitor_witness :
    (AstBackref.Inspect .litMatcher (fun _ => true)).trace
        = (AstBackref.Walk specContinueIff (fun _ => true) .litMatcher).trace
      ∧ (AstBackref.Inspect .litMatcher (fun _ => true)).result = .ok .litMatcher :=
  inspect_matches_spec_visitor (fun _ => true) .litMatcher
    (by simp [Expression.wellFormed])

/-- C9: the optional-capability variant (ast_walk.go `Walk`, with its dynamic
upgrade) and the always-Backref variant (part_000 `Walk`) have identical
observable traversal behavior: for every tree, a plain visitor and its
back-reference-ignoring counterpart, and a replacer visitor and its
parent-ignoring counterpart, produce the same sequence of visited nodes. -/
theorem variant_traces_equal {σ : Type}
    (visitP : σ → Option Expression → Option σ)
    (visitR : σ → Option Expression → VisitStep σ) (s : σ) (e : Expression) :
    (AstWalk.Walk (.plain visitP) s e).1 = (AstBackref.Walk (liftPlain visitP) s e).trace
      ∧ (AstWalk.Walk (.withReplace visitR) s e).1
        = (AstBackref.Walk (liftReplace visitR) s e).trace := by
  constructor
  · show (AstWalk.walkVisitor visitP s e).1 = _
    rw [walkVisitor_eq_walk0 visitP s e none]
    rfl
  · show (AstWalk.walkReplacer visitR s e none).trace = _
    rw [walkReplacer_eq_walk0 visitR s e none]
    rfl

/-- C10: for every well-formed tree and every visitor that never invokes the
supplied replacer closures, the tree after `Walk` returns is structurally
identical to the tree before the call — every node, child field and child
sequence element unchanged. -/
theorem walk_without_replacer_calls_preserves_tree {σ : Type}
    (visit : σ → Option Expression → AstBackref.Backref → VisitStep σ)
    (h : ∀ s0 oe br, (visit s0 oe br).calls = [])
    (s : σ) (e : Expression) (hw : e.wellFormed = true) :
    (AstBackref.Walk visit s e).result = .ok e :=
  walk0_nocalls visit h s e none hw

/-- witness C10: the always-continue, never-replacing visitor leaves a
concrete Rule tree unchanged. -/
theorem walk_without_replacer_calls_preserves_tree_witness :
    (AstBackref.Walk allCont () (.rule .litMatcher)).result = .ok (.rule .litMatcher) :=
  walk_without_replacer_calls_preserves_tree allCont (fun _ _ _ => rfl) ()
    (.rule .litMatcher) (by simp [Expression.wellFormed])
